import Mathlib

/-!
Verification of the Fisher-information engine of `madminer`
(`src/madminer/fisherinformation.py`, `src/madminer/models/readers.py`).

Matrices and tensors are embedded as nested lists of rationals; numpy
operations used by the source are embedded with their documented semantics
(fancy indexing, broadcasting of assignments, `searchsorted`, `einsum`),
and Python exceptions are embedded as `Except` errors.  The morphing
reweighter and the helpers `mdot` / `sanitize_array` live in modules of the
repository that are not part of `src/`; those are modelled from the spec,
as their doc comments note.
-/

namespace Madminer

abbrev Vec := List ℚ

abbrev Mat := List (List ℚ)

/-- Dot product of two rational vectors (callers of the embedding always
pass vectors of equal length). -/
def dotQ (u v : Vec) : ℚ := (List.zipWith (fun a b => a * b) u v).sum

/-- Modelled from the spec: `mdot(theta_matrix, weights_benchmarks)` from
`madminer.utils.analysis` (a module of the repository that is not under
`src/`).  Per spec section 4.2: differential cross section
`sigma[n] = theta_matrix . weights[n]`, shape `(n_events,)`. -/
def mdotVec (theta_matrix : Vec) (W : Mat) : Vec :=
  W.map (fun w => dotQ theta_matrix w)

/-- Modelled from the spec: `mdot(dtheta_matrix, weights_benchmarks)`.
Per spec section 4.2: gradient `dsigma[:, n] = dtheta_matrix . weights[n]`,
shape `(n_parameters, n_events)`. -/
def mdotMat (dtheta_matrix : Mat) (W : Mat) : Mat :=
  dtheta_matrix.map (fun row => W.map (fun w => dotQ row w))

/-- Modelled from the spec: the effect of `sanitize_array(1.0 / sigma)`
(`sanitize_array` is in `madminer.utils.various`, not under `src/`).
Spec section 4.2: `inv_sigma[n] = 1/sigma[n]` where `sigma[n] != 0` and
finite, else `0`.  Over `ℚ` every value is finite, so only the division
by zero (an `inf` in numpy, replaced by `0`) remains. -/
def sanitizeInvOne (x : ℚ) : ℚ := if x = 0 then 0 else x⁻¹

/-- `sanitize_array(1.0 / sigma)` applied to the whole vector. -/
def sanitizeInv (s : Vec) : Vec := s.map sanitizeInvOne

/-- `np.einsum("n,in,jn->nij", a, B, C)`: the rank-3 tensor with entry
`(n, i, j)` equal to `a[n] * B[i, n] * C[j, n]`. -/
def einsum_n_in_jn (a : Vec) (B C : Mat) : List Mat :=
  (List.range a.length).map (fun n =>
    B.map (fun Bi => C.map (fun Cj => a.getD n 0 * Bi.getD n 0 * Cj.getD n 0)))

/-- Scalar multiplication of a rank-3 tensor, `luminosity * tensor`. -/
def smul3 (c : ℚ) (t : List Mat) : List Mat :=
  t.map (fun m => m.map (fun r => r.map (fun x => c * x)))

/-- `fisherinformation.py` lines 1044-1056, the physical block of
`_calculate_fisher_information`:
`fisher_info_phys = luminosity * np.einsum("n,in,jn->nij", inv_sigma, dsigma, dsigma)`
with `sigma = mdot(theta_matrix, weights_benchmarks)`,
`inv_sigma = sanitize_array(1.0 / sigma)` and
`dsigma = mdot(dtheta_matrix, weights_benchmarks)`. -/
def fisher_info_phys (luminosity : ℚ) (theta_matrix : Vec) (dtheta_matrix : Mat)
    (weights_benchmarks : Mat) : List Mat :=
  smul3 luminosity
    (einsum_n_in_jn (sanitizeInv (mdotVec theta_matrix weights_benchmarks))
      (mdotMat dtheta_matrix weights_benchmarks)
      (mdotMat dtheta_matrix weights_benchmarks))

/-- Entry `(n, i, j)` of a rank-3 tensor stored as nested lists. -/
def entry3 (t : List Mat) (n i j : ℕ) : ℚ := ((t.getD n []).getD i []).getD j 0

/-- A two-dimensional entry lookup, `M[i, j]`. -/
def entry2 (m : Mat) (i j : ℕ) : ℚ := (m.getD i []).getD j 0

/-- `fisherinformation.py` lines 36-43, `project_information`: the new
matrix entry `(xnew, ynew)` is `fisher_information[xold, yold]` for
`xold`, `yold` running over `remaining_components`. -/
def project_information (fisher_information : Mat) (remaining_components : List ℕ) : Mat :=
  remaining_components.map (fun xold =>
    remaining_components.map (fun yold => entry2 fisher_information xold yold))

theorem getD_map_lt {α β : Type} (f : α → β) (l : List α) (n : ℕ) (d : α) (d' : β)
    (h : n < l.length) : (l.map f).getD n d' = f (l.getD n d) := by
  induction l generalizing n with
  | nil => simp at h
  | cons a t ih =>
    cases n with
    | zero => simp
    | succ m =>
      simp only [List.map_cons, List.getD_cons_succ]
      exact ih m (by simpa using h)

theorem getD_range_lt (k n d : ℕ) (h : n < k) : (List.range k).getD n d = n := by
  induction k with
  | zero => simp at h
  | succ m ih =>
    rcases Nat.lt_succ_iff_lt_or_eq.mp h with h' | h'
    · rw [List.range_succ, List.getD_append _ _ _ _ (by simpa using h')]
      exact ih h'
    · subst h'
      rw [List.range_succ, List.getD_append_right _ _ _ _ (by simp)]
      simp

theorem getD_oob {α : Type} (l : List α) (n : ℕ) (d : α) (h : l.length ≤ n) :
    l.getD n d = d :=
  List.getD_eq_default l d h

theorem einsum_getD (a : Vec) (B C : Mat) (n : ℕ) (hn : n < a.length) :
    (einsum_n_in_jn a B C).getD n []
      = B.map (fun Bi => C.map (fun Cj => a.getD n 0 * Bi.getD n 0 * Cj.getD n 0)) := by
  unfold einsum_n_in_jn
  rw [getD_map_lt _ _ n 0 [] (by simpa using hn), getD_range_lt _ _ _ hn]

theorem entry3_smul3 (c : ℚ) (t : List Mat) (n i j : ℕ) (hn : n < t.length)
    (hi : i < (t.getD n []).length) (hj : j < ((t.getD n []).getD i []).length) :
    entry3 (smul3 c t) n i j = c * entry3 t n i j := by
  unfold entry3 smul3
  rw [getD_map_lt _ _ n [] [] hn, getD_map_lt _ _ i [] [] hi, getD_map_lt _ _ j 0 0 hj]

theorem mdotMat_getD (dt W : Mat) (i n : ℕ) (hi : i < dt.length) (hn : n < W.length) :
    ((mdotMat dt W).getD i []).getD n 0 = dotQ (dt.getD i []) (W.getD n []) := by
  unfold mdotMat
  rw [getD_map_lt _ _ i [] [] hi, getD_map_lt _ _ n [] 0 hn]

theorem sanitizeInv_getD (tv : Vec) (W : Mat) (n : ℕ) (hn : n < W.length) :
    (sanitizeInv (mdotVec tv W)).getD n 0 = sanitizeInvOne (dotQ tv (W.getD n [])) := by
  unfold sanitizeInv mdotVec
  rw [getD_map_lt _ _ n 0 0 (by simpa using hn), getD_map_lt _ _ n [] 0 hn]

/-- Entry formula for the physical Fisher-information block, for in-range
indices.  Shared between the claims about `_calculate_fisher_information`. -/
theorem fisher_info_phys_entry (L : ℚ) (tv : Vec) (dt W : Mat) (n i j : ℕ)
    (hn : n < W.length) (hi : i < dt.length) (hj : j < dt.length) :
    entry3 (fisher_info_phys L tv dt W) n i j
      = L * sanitizeInvOne (dotQ tv (W.getD n []))
          * dotQ (dt.getD i []) (W.getD n []) * dotQ (dt.getD j []) (W.getD n []) := by
  have hlen : (sanitizeInv (mdotVec tv W)).length = W.length := by
    simp [sanitizeInv, mdotVec]
  have hn' : n < (sanitizeInv (mdotVec tv W)).length := by rw [hlen]; exact hn
  have hgetD := einsum_getD (sanitizeInv (mdotVec tv W)) (mdotMat dt W) (mdotMat dt W) n hn'
  have hiB : i < (mdotMat dt W).length := by simpa [mdotMat] using hi
  have hjB : j < (mdotMat dt W).length := by simpa [mdotMat] using hj
  unfold fisher_info_phys
  rw [entry3_smul3 L _ n i j
      (by simpa [einsum_n_in_jn] using hn')
      (by rw [hgetD]; simpa using hiB)
      (by rw [hgetD, getD_map_lt _ _ i [] [] hiB]; simpa using hjB)]
  unfold entry3
  rw [hgetD, getD_map_lt _ _ i [] [] hiB, getD_map_lt _ _ j [] 0 hjB]
  rw [mdotMat_getD dt W i n hi hn, mdotMat_getD dt W j n hj hn,
    sanitizeInv_getD tv W n hn]
  ring

theorem fisher_info_phys_length (L : ℚ) (tv : Vec) (dt W : Mat) :
    (fisher_info_phys L tv dt W).length = W.length := by
  simp [fisher_info_phys, smul3, einsum_n_in_jn, sanitizeInv, mdotVec]

theorem fisher_info_phys_getD_eq (L : ℚ) (tv : Vec) (dt W : Mat) (n : ℕ)
    (hn : n < W.length) :
    (fisher_info_phys L tv dt W).getD n []
      = ((mdotMat dt W).map (fun Bi => (mdotMat dt W).map
          (fun Cj => (sanitizeInv (mdotVec tv W)).getD n 0 * Bi.getD n 0 * Cj.getD n 0))).map
            (fun m => m.map (fun x => L * x)) := by
  have hn' : n < (sanitizeInv (mdotVec tv W)).length := by
    simpa [sanitizeInv, mdotVec] using hn
  have h1 := getD_map_lt (fun m => m.map (fun r => r.map (fun x => L * x)))
    (einsum_n_in_jn (sanitizeInv (mdotVec tv W)) (mdotMat dt W) (mdotMat dt W)) n
    ([] : Mat) ([] : Mat) (by simpa [einsum_n_in_jn] using hn')
  unfold fisher_info_phys smul3
  rw [h1, einsum_getD _ _ _ n hn']

theorem fisher_info_phys_getD_length (L : ℚ) (tv : Vec) (dt W : Mat) (n : ℕ)
    (hn : n < W.length) :
    ((fisher_info_phys L tv dt W).getD n []).length = dt.length := by
  rw [fisher_info_phys_getD_eq L tv dt W n hn]
  simp [mdotMat]

theorem fisher_info_phys_getD2_length (L : ℚ) (tv : Vec) (dt W : Mat) (n i : ℕ)
    (hn : n < W.length) (hi : i < dt.length) :
    (((fisher_info_phys L tv dt W).getD n []).getD i []).length = dt.length := by
  have hiB : i < (mdotMat dt W).length := by simpa [mdotMat] using hi
  rw [fisher_info_phys_getD_eq L tv dt W n hn, List.map_map]
  have h2 := getD_map_lt ((fun m => m.map (fun x => L * x)) ∘ (fun Bi => (mdotMat dt W).map
    (fun Cj => (sanitizeInv (mdotVec tv W)).getD n 0 * Bi.getD n 0 * Cj.getD n 0)))
    (mdotMat dt W) i ([] : Vec) ([] : Vec) hiB
  rw [h2]
  simp [mdotMat]

/-- Out-of-range entries of the physical block default to `0` in the
list embedding. -/
theorem fisher_info_phys_entry_oob (L : ℚ) (tv : Vec) (dt W : Mat) (n i j : ℕ)
    (h : W.length ≤ n ∨ dt.length ≤ i ∨ dt.length ≤ j) :
    entry3 (fisher_info_phys L tv dt W) n i j = 0 := by
  by_cases hn : n < W.length
  · by_cases hi : i < dt.length
    · have hj : dt.length ≤ j := by
        rcases h with h | h | h
        · omega
        · omega
        · exact h
      have hv : (((fisher_info_phys L tv dt W).getD n []).getD i []).getD j 0 = 0 :=
        getD_oob _ _ _ (by rw [fisher_info_phys_getD2_length L tv dt W n i hn hi]; exact hj)
      exact hv
    · have hrow : ((fisher_info_phys L tv dt W).getD n []).getD i ([] : Vec) = [] :=
        getD_oob _ _ _ (by rw [fisher_info_phys_getD_length L tv dt W n hn]; omega)
      unfold entry3
      rw [hrow]
      rfl
  · have ht : (fisher_info_phys L tv dt W).getD n ([] : Mat) = [] :=
      getD_oob _ _ _ (by rw [fisher_info_phys_length]; omega)
    unfold entry3
    rw [ht]
    rfl

/-- C1: the physical Fisher-information contribution of event `n` and
parameter indices `i`, `j` is
`luminosity * inv_sigma[n] * dsigma[i, n] * dsigma[j, n]` with
`sigma[n]` the dot product of the reweighting combination vector with the
event's benchmark weights, `dsigma` the gradient matrix applied to those
weights, and `inv_sigma[n] = 1/sigma[n]` when `sigma[n]` is nonzero (and
finite) and `0` otherwise, so a zero cross section contributes zero
information rather than raising an error. -/
theorem C1_calculate_fisher_information_phys (L : ℚ) (tv : Vec) (dt W : Mat) (n i j : ℕ)
    (hn : n < W.length) (hi : i < dt.length) (hj : j < dt.length) :
    entry3 (fisher_info_phys L tv dt W) n i j
      = L * (if dotQ tv (W.getD n []) = 0 then 0 else (dotQ tv (W.getD n []))⁻¹)
          * dotQ (dt.getD i []) (W.getD n []) * dotQ (dt.getD j []) (W.getD n [])
    ∧ (dotQ tv (W.getD n []) = 0 → entry3 (fisher_info_phys L tv dt W) n i j = 0) := by
  constructor
  · rw [fisher_info_phys_entry L tv dt W n i j hn hi hj]
    rfl
  · intro h0
    rw [fisher_info_phys_entry L tv dt W n i j hn hi hj, h0]
    simp [sanitizeInvOne]

/-- Witness for C1: a two-benchmark, two-parameter, one-event example;
`sigma = 8`, `dsigma = (3, 5)`, so the `(0, 0, 1)` entry is
`2 * (1/8) * 3 * 5 = 15/4`. -/
theorem C1_calculate_fisher_information_phys_witness :
    entry3 (fisher_info_phys 2 [1, 1] [[1, 0], [0, 1]] [[3, 5]]) 0 0 1 = 15 / 4 := by
  rw [(C1_calculate_fisher_information_phys 2 [1, 1] [[1, 0], [0, 1]] [[3, 5]] 0 0 1
    (by decide) (by decide) (by decide)).1]
  norm_num [dotQ]

/-- C8 counterexample: with a negative benchmark weight the cross section
`sigma = -1` is negative, `inv_sigma = -1`, and the diagonal entry of the
physical block is `1 * (-1) * (-1) * (-1) = -1 < 0`, refuting
nonnegativity of the diagonal under nonnegative luminosity. -/
theorem C8_diag_counterexample :
    entry3 (fisher_info_phys 1 [1] [[1]] [[-1]]) 0 0 0 < 0 := by
  norm_num [entry3, fisher_info_phys, smul3, einsum_n_in_jn, sanitizeInv, sanitizeInvOne,
    mdotVec, mdotMat, dotQ, List.range_succ]

/-- C8 (amended): every diagonal entry of the physical block is
nonnegative provided the luminosity is nonnegative and the event's cross
section `sigma[n]` is nonnegative; with negative morphing weights a
negative `sigma[n]` yields a negative diagonal entry, so the extra
hypothesis on `sigma` is needed. -/
theorem C8_phys_diag_nonneg (L : ℚ) (tv : Vec) (dt W : Mat) (n i : ℕ)
    (hL : 0 ≤ L) (hs : 0 ≤ dotQ tv (W.getD n [])) :
    0 ≤ entry3 (fisher_info_phys L tv dt W) n i i := by
  by_cases hn : n < W.length
  · by_cases hi : i < dt.length
    · rw [fisher_info_phys_entry L tv dt W n i i hn hi hi]
      have h1 : 0 ≤ sanitizeInvOne (dotQ tv (W.getD n [])) := by
        unfold sanitizeInvOne
        split
        · exact le_refl 0
        · exact inv_nonneg.mpr hs
      rw [mul_assoc]
      exact mul_nonneg (mul_nonneg hL h1)
        (mul_self_nonneg (dotQ (dt.getD i []) (W.getD n [])))
    · rw [fisher_info_phys_entry_oob L tv dt W n i i (Or.inr (Or.inl (not_lt.mp hi)))]
  · rw [fisher_info_phys_entry_oob L tv dt W n i i (Or.inl (not_lt.mp hn))]

/-- Witness for C8: nonnegative luminosity and cross section give a
nonnegative diagonal entry. -/
theorem C8_phys_diag_nonneg_witness :
    0 ≤ entry3 (fisher_info_phys 1 [1] [[1]] [[2]]) 0 0 0 :=
  C8_phys_diag_nonneg 1 [1] [[1]] [[2]] 0 0 (by norm_num) (by norm_num [dotQ])

/-- C3: `project_information` returns the `m x m` matrix whose `(i, j)`
entry is `M[rc[i], rc[j]]`, in the given order, and projecting a square
matrix onto all of `[0..n-1]` returns it unchanged. -/
theorem C3_project_information (M : Mat) (rc : List ℕ) (n : ℕ)
    (hlen : M.length = n) (hrows : ∀ row ∈ M, row.length = n)
    (hrange : ∀ x ∈ rc, x < n) (hnd : rc.Nodup) :
    (∀ i j, i < rc.length → j < rc.length →
      entry2 (project_information M rc) i j = entry2 M (rc.getD i 0) (rc.getD j 0))
    ∧ project_information M (List.range n) = M := by
  constructor
  · intro i j hi hj
    unfold entry2 project_information
    rw [getD_map_lt _ _ i 0 [] hi, getD_map_lt _ _ j 0 0 hj]
    rfl
  · apply List.ext_getElem
    · simp [project_information, hlen]
    · intro i h1 h2
      have hi_n : i < n := by simpa [project_information] using h1
      have hiM : i < M.length := by rw [hlen]; exact hi_n
      simp only [project_information, List.getElem_map, List.getElem_range]
      apply List.ext_getElem
      · simpa using (hrows M[i] (List.getElem_mem hiM)).symm
      · intro j hj1 hj2
        simp only [List.getElem_map, List.getElem_range, entry2]
        rw [List.getD_eq_getElem M [] hiM, List.getD_eq_getElem M[i] 0 hj2]

/-- Witness for C3: projecting `[[1, 2], [3, 4]]` onto component `[1]`
gives the `1 x 1` matrix `[[4]]`, and projecting onto `[0, 1]` is the
identity. -/
theorem C3_project_information_witness :
    entry2 (project_information [[1, 2], [3, 4]] [1]) 0 0 = 4
    ∧ project_information [[1, 2], [3, 4]] (List.range 2) = [[1, 2], [3, 4]] := by
  have h := C3_project_information [[1, 2], [3, 4]] [1] 2 (by decide) (by decide)
    (by decide) (by decide)
  exact ⟨by rw [h.1 0 0 (by decide) (by decide)]; rfl, h.2⟩

/-- Python exceptions that the embedded code can raise. -/
inductive PyErr where
  | assertError
  | linAlgError
  | indexError
  | valueError
  | typeError
  | nameError
  deriving DecidableEq, Repr

/-- A numpy array of rank one or two (or a scalar, as produced by
`np.dot` of two vectors). -/
inductive NpArr where
  | scalar (q : ℚ)
  | one (v : Vec)
  | two (m : Mat)
  deriving DecidableEq, Repr

/-- Broadcasting of two integer index arrays against each other, as numpy
fancy indexing `m[rows, cols]` does: equal lengths pair up elementwise, a
length-one array broadcasts, anything else raises `IndexError`. -/
def pairIndices (rows cols : List ℕ) : Except PyErr (List (ℕ × ℕ)) :=
  if rows.length = cols.length then .ok (rows.zip cols)
  else if rows.length = 1 then .ok (cols.map (fun c => (rows.headD 0, c)))
  else if cols.length = 1 then .ok (rows.map (fun r => (r, cols.headD 0)))
  else .error .indexError

/-- numpy fancy indexing with two integer index lists.  On a rank-2 array
it extracts the PAIRED elements `m[rows[k], cols[k]]` into a rank-1 array
(it does not form a submatrix); on a rank-1 array two index lists are too
many indices and raise `IndexError`; an out-of-bounds index raises
`IndexError`. -/
def fancyIndexPair (a : NpArr) (rows cols : List ℕ) : Except PyErr NpArr :=
  match a with
  | .scalar _ => .error .indexError
  | .one _ => .error .indexError
  | .two m => do
      let ps ← pairIndices rows cols
      if ps.all (fun p => decide (p.1 < m.length) && decide (p.2 < (m.getD p.1 []).length)) then
        .ok (.one (ps.map (fun p => (m.getD p.1 []).getD p.2 0)))
      else .error .indexError

/-- Laplace expansion of the determinant along the first row, with the
list length as structural fuel. -/
def detAux : ℕ → Mat → ℚ
  | 0, _ => 1
  | k + 1, m =>
    match m with
    | [] => 1
    | r :: rest =>
      ((List.range r.length).map (fun j =>
        (-1 : ℚ) ^ j * r.getD j 0 * detAux k (rest.map (fun row => row.eraseIdx j)))).sum

/-- Determinant of a rational matrix in list form. -/
def detQ (m : Mat) : ℚ := detAux m.length m

/-- The minor of a matrix: delete row `i` and column `j`. -/
def minorMat (m : Mat) (i j : ℕ) : Mat :=
  (m.eraseIdx i).map (fun row => row.eraseIdx j)

/-- Matrix inverse by the adjugate formula. -/
def matInverse (m : Mat) : Mat :=
  (List.range m.length).map (fun i => (List.range m.length).map (fun j =>
    (-1 : ℚ) ^ (i + j) * detQ (minorMat m j i) / detQ m))

/-- `np.linalg.inv`: requires an array of rank at least two ("...array must
be at least two-dimensional"): a rank-1 (or scalar) argument raises
`LinAlgError`, as does a singular or non-square matrix. -/
def npLinalgInv (a : NpArr) : Except PyErr NpArr :=
  match a with
  | .scalar _ => .error .linAlgError
  | .one _ => .error .linAlgError
  | .two m =>
      if (∀ r ∈ m, r.length = m.length) ∧ detQ m ≠ 0 then .ok (.two (matInverse m))
      else .error .linAlgError

/-- Transpose of a rectangular matrix in list form. -/
def transposeMat (m : Mat) : Mat :=
  (List.range (m.headD []).length).map (fun j => m.map (fun row => row.getD j 0))

/-- `.T` on a numpy array: reverses the axes (the transpose of a rank-1
array is itself). -/
def npTransposeArr (a : NpArr) : NpArr :=
  match a with
  | .scalar q => .scalar q
  | .one v => .one v
  | .two m => .two (transposeMat m)

/-- `np.dot`, with a shape mismatch raising `ValueError`. -/
def npDot (a b : NpArr) : Except PyErr NpArr :=
  match a, b with
  | .one u, .one v => if u.length = v.length then .ok (.scalar (dotQ u v)) else .error .valueError
  | .two m, .one v =>
      if ∀ r ∈ m, r.length = v.length then .ok (.one (m.map (fun r => dotQ r v)))
      else .error .valueError
  | .one u, .two m =>
      if u.length = m.length then .ok (.one ((transposeMat m).map (fun c => dotQ u c)))
      else .error .valueError
  | .two ma, .two mb =>
      if ∀ r ∈ ma, r.length = mb.length then
        .ok (.two (ma.map (fun r => (transposeMat mb).map (fun c => dotQ r c))))
      else .error .valueError
  | _, _ => .error .valueError

/-- Elementwise subtraction of two numpy arrays of the same shape (other
combinations raise, which the embedded code never reaches). -/
def npSub (a b : NpArr) : Except PyErr NpArr :=
  match a, b with
  | .scalar x, .scalar y => .ok (.scalar (x - y))
  | .one u, .one v =>
      if u.length = v.length then .ok (.one (List.zipWith (fun x y => x - y) u v))
      else .error .valueError
  | .two ma, .two mb =>
      if ma.length = mb.length then
        .ok (.two (List.zipWith (fun ra rb => List.zipWith (fun x y => x - y) ra rb) ma mb))
      else .error .valueError
  | _, _ => .error .valueError

/-- `fisherinformation.py` lines 106-114, the inner `_profile` of
`profile_information`, with numpy fancy-indexing semantics:
`information_phys = information_in[remaining_components, remaining_components]`,
`information_mix = information_in[profiled_components, remaining_components]`,
`information_nuisance = information_in[profiled_components, profiled_components]`,
then `information_phys - information_mix.T.dot(np.linalg.inv(information_nuisance).dot(information_mix))`. -/
def profileInner (remaining_components profiled_components : List ℕ) (information_in : NpArr) :
    Except PyErr NpArr := do
  let information_phys ← fancyIndexPair information_in remaining_components remaining_components
  let information_mix ← fancyIndexPair information_in profiled_components remaining_components
  let information_nuisance ← fancyIndexPair information_in profiled_components profiled_components
  let inverse_information_nuisance ← npLinalgInv information_nuisance
  let inner ← npDot inverse_information_nuisance information_mix
  let outer ← npDot (npTransposeArr information_mix) inner
  npSub information_phys outer

/-- `fisherinformation.py` lines 94-99: the loop collecting the in-range
components that are in `remaining_components`. -/
def remaining_components_checked (n_components : ℕ) (remaining_components : List ℕ) : List ℕ :=
  (List.range n_components).filter (fun i => decide (i ∈ remaining_components))

/-- `fisherinformation.py` lines 94-101: the complement list. -/
def profiled_components (n_components : ℕ) (remaining_components : List ℕ) : List ℕ :=
  (List.range n_components).filter (fun i => decide (i ∉ remaining_components))

/-- `fisherinformation.py` lines 46-117, `profile_information` without a
covariance argument: group components, `assert` their count is consistent
(an `AssertionError` otherwise), then run `_profile` on the input matrix. -/
def profile_information (fisher_information : Mat) (remaining_components : List ℕ) :
    Except PyErr NpArr :=
  if remaining_components.length
      = (remaining_components_checked fisher_information.length remaining_components).length then
    profileInner remaining_components
      (profiled_components fisher_information.length remaining_components)
      (.two fisher_information)
  else .error .assertError

/-- Submatrix selection (rows and columns at the given index lists), as
the spec describes the profiling blocks. -/
def submatrixSel (M : Mat) (rows cols : List ℕ) : Mat :=
  rows.map (fun r => cols.map (fun c => entry2 M r c))

/-- Matrix product of rational matrices in list form. -/
def matMulQ (A B : Mat) : Mat :=
  A.map (fun row => (transposeMat B).map (fun col => dotQ row col))

/-- Elementwise difference of two rational matrices in list form. -/
def matSubQ (A B : Mat) : Mat :=
  List.zipWith (fun ra rb => List.zipWith (fun x y => x - y) ra rb) A B

/-- Modelled from the spec: the profiled Fisher information
`I_keep - I_mix^T . I_marg^{-1} . I_mix` where `I_keep` is the submatrix
at the kept rows and columns, `I_marg` the submatrix at the profiled rows
and columns, and `I_mix` the cross block (profiled rows, kept columns).
This is the value `profile_information` is claimed to return. -/
def schurComplementSpec (M : Mat) (keep prof : List ℕ) : Mat :=
  matSubQ (submatrixSel M keep keep)
    (matMulQ (transposeMat (submatrixSel M prof keep))
      (matMulQ (matInverse (submatrixSel M prof prof)) (submatrixSel M prof keep)))

/-- Arithmetic mean of a list of rationals. -/
def listMean (xs : List ℚ) : ℚ := xs.sum / (xs.length : ℚ)

/-- `np.cov` of the rows seen as observations of `dim` coordinates (the
source transposes the toy matrix before calling `np.cov`, so coordinates
index the flattened profiled entries and observations index the toys). -/
def covMatrixOfToys (rows : List Vec) (dim : ℕ) : Mat :=
  (List.range dim).map (fun a => (List.range dim).map (fun b =>
    ((rows.map (fun r =>
        (r.getD a 0 - listMean (rows.map (fun s => s.getD a 0)))
          * (r.getD b 0 - listMean (rows.map (fun s => s.getD b 0))))).sum)
      / ((rows.length : ℚ) - 1)))

/-- Scalar division of a matrix, `toy_covariance / error_propagation_factor`. -/
def matDivScalar (m : Mat) (c : ℚ) : Mat := m.map (fun r => r.map (fun x => x / c))

/-- The flattened entries of a profiled toy result. -/
def flattenNpArr (a : NpArr) : Vec :=
  match a with
  | .scalar q => [q]
  | .one v => v
  | .two m => List.flatten m

/-- `fisherinformation.py` lines 46-143, `profile_information` with a
covariance argument.  The call to `np.random.multivariate_normal` (mean =
the flattened input matrix, covariance = `error_propagation_factor` times
the reshaped covariance tensor, size = `error_propagation_n_ensemble`) is
external randomness; its output is the `toyDraws` parameter, one
flattened `n * n` vector per toy.  The source line
`information_toys.reshape((-1, n_components, n_components))` discards its
result, so each toy stays a flat rank-1 vector when `_profile` is applied
to it.  The profiled toys are then flattened, their empirical covariance
is taken and divided by `error_propagation_factor`. -/
def profile_information_with_covariance (fisher_information : Mat)
    (remaining_components : List ℕ) (covariance : List (List Mat))
    (error_propagation_factor : ℚ) (toyDraws : List Vec) :
    Except PyErr (NpArr × Mat) :=
  if remaining_components.length
      = (remaining_components_checked fisher_information.length remaining_components).length then do
    let pc := profiled_components fisher_information.length remaining_components
    let profiled_information ← profileInner remaining_components pc (.two fisher_information)
    let toys ← toyDraws.mapM (fun info => profileInner remaining_components pc (.one info))
    let flats := toys.map flattenNpArr
    let m := remaining_components.length
    let toy_covariance := covMatrixOfToys flats (m * m)
    .ok (profiled_information, matDivScalar toy_covariance error_propagation_factor)
  else .error .assertError

/-- C2: at the input `fisher_information = [[2, 0], [0, 2]]`,
`remaining_components = [0]`, the code raises: its fancy indexing
`information_in[list, list]` extracts paired elements, producing rank-1
arrays, and `np.linalg.inv` of the rank-1 nuisance array raises
`LinAlgError`.  The Schur complement the spec (and the function's own doc
string) describe is `[[2]]`. -/
theorem C2_profile_information_code_bug :
    profile_information [[2, 0], [0, 2]] [0] = .error .linAlgError
    ∧ schurComplementSpec [[2, 0], [0, 2]] [0] [1] = [[2]] := by
  constructor
  · rfl
  · norm_num [schurComplementSpec, submatrixSel, matMulQ, matSubQ, transposeMat, matInverse,
      minorMat, detQ, detAux, entry2, dotQ, List.range_succ, List.eraseIdx]

/-- C4: with a covariance argument, `profile_information` raises before
any toy covariance is produced: the central `_profile` call already
raises `LinAlgError` (fancy indexing plus `np.linalg.inv` of a rank-1
array), for every covariance tensor, propagation factor and every
possible output of the multivariate-normal sampler. -/
theorem C4_profile_information_covariance_code_bug :
    ∀ (covariance : List (List Mat)) (factor : ℚ) (toyDraws : List Vec),
      profile_information_with_covariance [[2, 0], [0, 2]] [0] covariance factor toyDraws
        = .error .linAlgError := by
  intro covariance factor toyDraws
  rfl

/-- C10: a duplicate or out-of-range index in `remaining_components`
makes the consistency check fail, so `profile_information` raises an
`AssertionError` before computing any profiled result. -/
theorem C10_profile_information_assert (M : Mat) (rc : List ℕ)
    (h : ¬ rc.Nodup ∨ ∃ x ∈ rc, M.length ≤ x) :
    profile_information M rc = .error .assertError := by
  have hnd : (remaining_components_checked M.length rc).Nodup :=
    List.Nodup.filter _ (List.nodup_range M.length)
  have hcard : (remaining_components_checked M.length rc).toFinset.card
      = (remaining_components_checked M.length rc).length :=
    List.toFinset_card_of_nodup hnd
  have hsub : (remaining_components_checked M.length rc).toFinset ⊆ rc.toFinset := by
    intro y hy
    have hyr := List.mem_toFinset.mp hy
    have hyrc : y ∈ rc := by
      have h2 := (List.mem_filter.mp hyr).2
      simpa using h2
    exact List.mem_toFinset.mpr hyrc
  have hlt : (remaining_components_checked M.length rc).length < rc.length := by
    rcases h with hdup | ⟨x, hx, hxn⟩
    · have hd : rc.dedup.length ≤ rc.length := (List.dedup_sublist rc).length_le
      have hne : rc.dedup.length ≠ rc.length := fun he =>
        hdup ((List.dedup_sublist rc).eq_of_length he ▸ List.nodup_dedup rc)
      have h1 : rc.toFinset.card < rc.length := by
        rw [List.card_toFinset]
        omega
      have h2 : (remaining_components_checked M.length rc).toFinset.card ≤ rc.toFinset.card :=
        Finset.card_le_card hsub
      omega
    · have hxF : x ∈ rc.toFinset := List.mem_toFinset.mpr hx
      have hsub2 : (remaining_components_checked M.length rc).toFinset ⊆ rc.toFinset.erase x := by
        intro y hy
        have hyr := List.mem_toFinset.mp hy
        have hyn : y < M.length := List.mem_range.mp (List.mem_filter.mp hyr).1
        refine Finset.mem_erase.mpr ⟨?_, hsub hy⟩
        omega
      have h2 := Finset.card_le_card hsub2
      have h3 : (rc.toFinset.erase x).card < rc.toFinset.card := Finset.card_erase_lt_of_mem hxF
      have h4 : rc.toFinset.card ≤ rc.length := List.toFinset_card_le rc
      omega
  unfold profile_information
  rw [if_neg (by omega)]

/-- Witness for C10: a duplicate index `[0, 0]` trips the assertion. -/
theorem C10_profile_information_assert_witness :
    profile_information [[1, 0], [0, 1]] [0, 0] = .error .assertError :=
  C10_profile_information_assert [[1, 0], [0, 1]] [0, 0] (Or.inl (by decide))

/-- `np.searchsorted(bin_boundaries, x)` with the default side "left" on a
sorted boundary list (`fisherinformation.py` line 679): the number of
boundaries strictly below `x`. -/
def binIndex (bin_boundaries : Vec) (x : ℚ) : ℕ :=
  bin_boundaries.countP (fun b => decide (b < x))

/-- `fisherinformation.py` lines 683-686: the benchmark-weight vector
accumulated into bin `i`, summing the weight vectors of the filtered
events whose histogrammed observable lands in that bin.  An event is a
pair of its observable value and its benchmark-weight vector. -/
def aggregateBin (n_benchmarks : ℕ) (bin_boundaries : Vec) (events : List (ℚ × Vec)) (i : ℕ) :
    Vec :=
  (List.range n_benchmarks).map (fun b =>
    ((events.filter (fun e => binIndex bin_boundaries e.1 == i)).map
      (fun e => e.2.getD b 0)).sum)

/-- `fisherinformation.py` lines 1310-1315 (the rate path): the total
aggregated benchmark-weight vector of the same filtered events. -/
def totalWeights (n_benchmarks : ℕ) (events : List (ℚ × Vec)) : Vec :=
  (List.range n_benchmarks).map (fun b => (events.map (fun e => e.2.getD b 0)).sum)

/-- Elementwise sum of two matrices. -/
def matAddQ (A B : Mat) : Mat :=
  List.zipWith (fun ra rb => List.zipWith (fun x y => x + y) ra rb) A B

/-- `np.sum(tensor, axis=0)`: sum of a list of equally shaped matrices,
as `_calculate_fisher_information` does when `sum_events` is true. -/
def sumMats : List Mat → Mat
  | [] => []
  | m :: ms => ms.foldl matAddQ m

/-- `np.sum(list_of_vectors, axis=0)` truncated to `n_benchmarks`
components: the sum over all histogram bins of the per-bin aggregated
weight vectors. -/
def vecSumN (n_benchmarks : ℕ) (vs : List Vec) : Vec :=
  (List.range n_benchmarks).map (fun b => (vs.map (fun v => v.getD b 0)).sum)

theorem sum_map_add_dist {β : Type} (l : List β) (f g : β → ℚ) :
    (l.map (fun x => f x + g x)).sum = (l.map f).sum + (l.map g).sum := by
  induction l with
  | nil => simp
  | cons a t ih =>
    simp only [List.map_cons, List.sum_cons, ih]
    ring

theorem sum_range_indicator (nTot k : ℕ) (c : ℚ) (hk : k < nTot) :
    ((List.range nTot).map (fun i => if k = i then c else 0)).sum = c := by
  induction nTot with
  | zero => omega
  | succ n ih =>
    rw [List.range_succ, List.map_append, List.sum_append]
    by_cases hkn : k = n
    · subst hkn
      have hz : ((List.range k).map (fun i => if k = i then c else 0))
          = (List.range k).map (fun _ => 0) := by
        apply List.map_congr_left
        intro a ha
        have : a < k := List.mem_range.mp ha
        rw [if_neg (by omega)]
      rw [hz]
      simp
    · have hk' : k < n := by omega
      rw [ih hk']
      simp [hkn]

/-- Partitioning a sum over a list by the bin of each element: the
per-bin filtered sums, summed over all bins, recover the total sum. -/
theorem sum_range_filter_eq {α : Type} (l : List α) (f : α → ℚ) (binf : α → ℕ) (nTot : ℕ)
    (hb : ∀ e ∈ l, binf e < nTot) :
    ((List.range nTot).map (fun i => ((l.filter (fun e => binf e == i)).map f).sum)).sum
      = (l.map f).sum := by
  induction l with
  | nil => simp
  | cons e rest ih =>
    have hbe : binf e < nTot := hb e (by simp)
    have hrest : ∀ x ∈ rest, binf x < nTot := fun x hx => hb x (by simp [hx])
    have hterm : ((List.range nTot).map
          (fun i => (((e :: rest).filter (fun x => binf x == i)).map f).sum))
        = ((List.range nTot).map (fun i =>
            (if binf e = i then f e else 0)
              + ((rest.filter (fun x => binf x == i)).map f).sum)) := by
      apply List.map_congr_left
      intro i _
      rw [List.filter_cons]
      by_cases hei : binf e = i
      · simp [hei]
      · simp [hei]
    rw [hterm, sum_map_add_dist, sum_range_indicator nTot (binf e) (f e) hbe, ih hrest]
    simp

theorem aggregateBin_getD (nB : ℕ) (bnds : Vec) (events : List (ℚ × Vec)) (i b : ℕ)
    (hb : b < nB) :
    (aggregateBin nB bnds events i).getD b 0
      = ((events.filter (fun e => binIndex bnds e.1 == i)).map (fun e => e.2.getD b 0)).sum := by
  unfold aggregateBin
  rw [getD_map_lt _ _ b 0 0 (by simpa using hb), getD_range_lt _ _ _ hb]

/-- Summing the per-bin aggregated weight vectors over all bins yields
the total aggregated vector, because `searchsorted` assigns every event
to exactly one bin index below the total bin count. -/
theorem binned_weights_additive (nB nTot : ℕ) (bnds : Vec) (events : List (ℚ × Vec))
    (hTot : bnds.length < nTot) :
    vecSumN nB ((List.range nTot).map (aggregateBin nB bnds events)) = totalWeights nB events := by
  unfold vecSumN totalWeights
  apply List.map_congr_left
  intro b hb
  have hbN : b < nB := List.mem_range.mp hb
  rw [List.map_map]
  have hcong : (List.range nTot).map ((fun v => v.getD b 0) ∘ aggregateBin nB bnds events)
      = (List.range nTot).map (fun i =>
          ((events.filter (fun e => binIndex bnds e.1 == i)).map (fun e => e.2.getD b 0)).sum) := by
    apply List.map_congr_left
    intro i _
    simpa using aggregateBin_getD nB bnds events i b hbN
  rw [hcong]
  exact sum_range_filter_eq events (fun e => e.2.getD b 0) (fun e => binIndex bnds e.1) nTot
    (fun e _ => lt_of_le_of_lt (List.countP_le_length _) hTot)

/-- C7 counterexample: two histogram bins with cancelling gradients.
The per-bin rate-only informations (computed by `hist1d` from the binned
weight matrix and summed over the bin axis) add up to `[[2]]`, while the
global rate-only information of the same filtered events is `[[0]]`: the
rate-only Fisher information is not additive over histogram bins. -/
theorem C7_hist1d_counterexample :
    sumMats (fisher_info_phys 1 [1, 1] [[1, -1]]
        ((List.range 2).map (aggregateBin 2 [0] [((-1 : ℚ), [1, 0]), (1, [0, 1])])))
      ≠ sumMats (fisher_info_phys 1 [1, 1] [[1, -1]]
          [totalWeights 2 [((-1 : ℚ), [1, 0]), (1, [0, 1])]]) := by
  norm_num [sumMats, matAddQ, fisher_info_phys, smul3, einsum_n_in_jn, sanitizeInv,
    sanitizeInvOne, mdotVec, mdotMat, dotQ, aggregateBin, totalWeights, binIndex,
    List.range_succ, List.countP_cons, List.filter_cons]

/-- C7 (amended): what is additive is the weight aggregation, not the
information: summing the per-bin aggregated benchmark-weight vectors over
all histogram bins (overflow bins included) yields the total aggregated
vector of the same filtered events, so the rate-only Fisher information
computed from that sum equals the global rate-only information computed
directly; the per-bin rate-only informations themselves do not sum to the
global one. -/
theorem C7_hist1d_bin_additivity (L : ℚ) (tv : Vec) (dt : Mat) (bnds : Vec)
    (events : List (ℚ × Vec)) (nB nTot : ℕ) (hTot : bnds.length < nTot) :
    vecSumN nB ((List.range nTot).map (aggregateBin nB bnds events)) = totalWeights nB events
    ∧ sumMats (fisher_info_phys L tv dt
        [vecSumN nB ((List.range nTot).map (aggregateBin nB bnds events))])
      = sumMats (fisher_info_phys L tv dt [totalWeights nB events]) := by
  have hv := binned_weights_additive nB nTot bnds events hTot
  exact ⟨hv, by rw [hv]⟩

/-- Witness for C7: the two-bin example of the counterexample satisfies
the amended additivity of the aggregated weight vectors. -/
theorem C7_hist1d_bin_additivity_witness :
    vecSumN 2 ((List.range 2).map (aggregateBin 2 [0] [((-1 : ℚ), [1, 0]), (1, [0, 1])]))
      = totalWeights 2 [((-1 : ℚ), [1, 0]), (1, [0, 1])]
    ∧ sumMats (fisher_info_phys 1 [1, 1] [[1, -1]]
        [vecSumN 2 ((List.range 2).map (aggregateBin 2 [0] [((-1 : ℚ), [1, 0]), (1, [0, 1])]))])
      = sumMats (fisher_info_phys 1 [1, 1] [[1, -1]]
          [totalWeights 2 [((-1 : ℚ), [1, 0]), (1, [0, 1])]]) :=
  C7_hist1d_bin_additivity 1 [1, 1] [[1, -1]] [0] [((-1 : ℚ), [1, 0]), (1, [0, 1])] 2 2
    (by norm_num)

/-- One dimension of a numpy shape argument: `np.zeros` requires
integers; the source passes the weight matrix itself. -/
inductive NpShapeDim where
  | int (k : ℕ)
  | arr (m : Mat)
  deriving DecidableEq, Repr

/-- `np.zeros(shape)` for a rank-3 shape tuple: a non-integer entry
raises `TypeError` ("only integer scalar arrays can be converted to a
scalar index"). -/
def npZeros3 (d1 d2 d3 : NpShapeDim) : Except PyErr (ℕ × ℕ × ℕ) :=
  match d1, d2, d3 with
  | .int a, .int b, .int c => .ok (a, b, c)
  | _, _, _ => .error .typeError

/-- `fisherinformation.py` line 1099 as written:
`np.zeros((n_events, weights_benchmarks_phys, weights_benchmarks_phys))`
passes the physical weight matrix itself, not its benchmark count, as the
second and third dimension. -/
def covariance_inputs_shape (n_events : ℕ) (weights_benchmarks_phys : Mat) :
    Except PyErr (ℕ × ℕ × ℕ) :=
  npZeros3 (.int n_events) (.arr weights_benchmarks_phys) (.arr weights_benchmarks_phys)

/-- `zip(range(n_events), range(n_benchmarks), range(n_benchmarks))`:
lockstep iteration, so only triples `(k, k, k)` up to the shortest range
are produced. -/
def zipRange3 (nE nB : ℕ) : List (ℕ × ℕ × ℕ) :=
  ((List.range nE).zip ((List.range nB).zip (List.range nB))).map (fun p => (p.1, p.2.1, p.2.2))

/-- `fisherinformation.py` lines 1100-1108: the loop filling the input
covariance tensor (run over a correctly allocated zero tensor, which the
source never reaches).  Because the `zip` steps the event range and both
benchmark ranges in lockstep, `b1 == b2` always holds and only entries
`(k, k, k)` are ever written.  The tensor is a function of its indices. -/
def covariance_inputs_loop (unc : Mat) (nE nB : ℕ) : ℕ → ℕ → ℕ → ℚ :=
  (zipRange3 nE nB).foldl
    (fun c t =>
      fun i b1 b2 =>
        if i = t.1 ∧ b1 = t.2.1 ∧ b2 = t.2.2 then
          (if t.2.1 = t.2.2 then ((unc.getD t.1 []).getD t.2.1 0) ^ 2
           else ((unc.getD t.1 []).getD t.2.1 0) * ((unc.getD t.1 []).getD t.2.2 0))
        else c i b1 b2)
    (fun _ _ _ => 0)

/-- `fisherinformation.py` lines 1110-1117: the rank-4 Jacobian
`luminosity * (temp1 + temp2 + temp3)` of the physical information with
respect to the benchmark weights (`sanitize_array` is the identity on
finite rationals). -/
def fisherJacobian (L : ℚ) (tv : Vec) (dt W : Mat) (i j n b : ℕ) : ℚ :=
  L * ((dt.getD i []).getD b 0 * dotQ (dt.getD j []) (W.getD n [])
        * sanitizeInvOne (dotQ tv (W.getD n []))
      + (dt.getD j []).getD b 0 * dotQ (dt.getD i []) (W.getD n [])
          * sanitizeInvOne (dotQ tv (W.getD n []))
      + tv.getD b 0 * dotQ (dt.getD i []) (W.getD n []) * dotQ (dt.getD j []) (W.getD n [])
          * sanitizeInvOne (dotQ tv (W.getD n [])) * sanitizeInvOne (dotQ tv (W.getD n [])))

/-- `fisherinformation.py` lines 1087-1124: the `calculate_uncertainty`
branch for purely physical benchmarks (`W` is already the physical weight
matrix, `unc` the input uncertainties).  The `np.zeros` call at line 1099
receives the weight matrix as a dimension and raises `TypeError` before
the loop, the Jacobian or the contraction
`np.einsum("ijnb,nbc,klnc->ijkl", ...)` can run. -/
def calculate_fisher_information_uncertainty (L : ℚ) (tv : Vec) (dt W unc : Mat) :
    Except PyErr (ℕ → ℕ → ℕ → ℕ → ℚ) := do
  let nE := W.length
  let nB := (W.headD []).length
  let _shape ← covariance_inputs_shape nE W
  let covIn := covariance_inputs_loop unc nE nB
  .ok (fun i j k l =>
    ((List.range nE).map (fun n => ((List.range nB).map (fun b => ((List.range nB).map (fun c =>
      fisherJacobian L tv dt W i j n b * covIn n b c
        * fisherJacobian L tv dt W k l n c)).sum)).sum)).sum)

/-- C5: the uncertainty branch as written crashes: `np.zeros` receives
the physical weight matrix itself as two of its dimensions and raises
`TypeError` for every input.  Moreover the filling loop, even when run on
a correctly allocated tensor, steps the event and benchmark ranges in
lockstep, so the off-diagonal entry `(0, 0, 1)` stays `0` instead of the
product `1/10 * 1/5` of the two uncertainties that the claim requires. -/
theorem C5_covariance_inputs_code_bug :
    calculate_fisher_information_uncertainty 1 [1, 1] [[1, 0]] [[1, 2], [1, 3]]
        [[1 / 10, 1 / 5], [1 / 10, 1 / 5]] = .error .typeError
    ∧ covariance_inputs_loop [[1 / 10, 1 / 5], [1 / 10, 1 / 5]] 2 2 0 0 1 = 0
    ∧ (1 / 10 : ℚ) * (1 / 5) ≠ 0 := by
  refine ⟨rfl, rfl, by norm_num⟩

/-- Boolean-mask row selection `m[mask, :]` for a mask of the same
length, as `weights_benchmarks.T[self.benchmark_is_nuisance, :]` uses. -/
def maskRows (m : Mat) (mask : List Bool) : Mat :=
  ((m.zip mask).filter (fun p => p.2)).map (fun p => p.1)

/-- `np.einsum("in,jn->nij", B, C)` with the event count given by the
caller. -/
def einsum_in_jn (n_events : ℕ) (B C : Mat) : List Mat :=
  (List.range n_events).map (fun n =>
    B.map (fun Bi => C.map (fun Cj => Bi.getD n 0 * Cj.getD n 0)))

/-- `.T` of a rank-3 numpy array reverses all axes:
`(n, p, q) -> (q, p, n)`. -/
def transpose3 (t : List Mat) : List Mat :=
  (List.range ((t.headD []).headD []).length).map (fun k =>
    (List.range (t.headD []).length).map (fun j =>
      (List.range t.length).map (fun i => entry3 t i j k)))

/-- numpy array assignment `dst_block = src` with a rank-3 source and a
rank-2 destination block of shape `(r, c)`: leading axes of length one
are stripped, then each remaining source dimension must equal the
destination's or be one (broadcast); otherwise `ValueError` ("could not
broadcast input array ..."). -/
def assignTensorIntoBlock (t : List Mat) (r c : ℕ) : Except PyErr Mat :=
  match t with
  | [m] =>
      if (m.length = r ∨ m.length = 1) ∧ (∀ row ∈ m, row.length = c ∨ row.length = 1) then
        .ok ((List.range r).map (fun i => (List.range c).map (fun j =>
          entry2 m (if m.length = 1 then 0 else i)
            (if (m.getD (if m.length = 1 then 0 else i) []).length = 1 then 0 else j))))
      else .error .valueError
  | _ => .error .valueError

/-- The `(P+N) x (P+N)` matrix written blockwise, lines 1077-1081. -/
def assembleBlocks (P N : ℕ) (phys mix mixT nuis : Mat) : Mat :=
  (List.range (P + N)).map (fun i => (List.range (P + N)).map (fun j =>
    if i < P then (if j < P then entry2 phys i j else entry2 mix i (j - P))
    else (if j < P then entry2 mixT (i - P) j else entry2 nuis (i - P) (j - P))))

/-- `fisherinformation.py` lines 1059-1081: the
`include_nuisance_parameters` branch of `_calculate_fisher_information`.
`lg` models the real-valued `np.log` abstractly (its values play no role
in the claim settled here); `W` has one row of benchmark weights per
event, `benchmark_is_nuisance` one flag per benchmark.  The branch
allocates a single `(P+N) x (P+N)` matrix and assigns the per-event
rank-3 einsum results into its rank-2 blocks. -/
def calc_fisher_info_nuisance (lg : ℚ → ℚ) (L : ℚ) (tv : Vec) (dt : Mat) (W : Mat)
    (benchmark_is_nuisance : List Bool) (weights_sampling_benchmark : Option Vec) :
    Except PyErr Mat := do
  let sigma := mdotVec tv W
  let dsigma := mdotMat dt W
  let wsb := weights_sampling_benchmark.getD (W.map (fun row => row.getD 0 0))
  let nuisance_weight_ratio :=
    (maskRows (transposeMat W) benchmark_is_nuisance).map
      (fun row => List.zipWith (fun a b => a / b) row wsb)
  let logRatio := nuisance_weight_ratio.map (fun row => row.map lg)
  let fisher_info_nuisance := smul3 L (einsum_n_in_jn sigma logRatio logRatio)
  let fisher_info_mix := smul3 L (einsum_in_jn W.length dsigma logRatio)
  let tensor_phys := fisher_info_phys L tv dt W
  let P := dt.length
  let N := (benchmark_is_nuisance.filter (fun b => b)).length
  let blockPhys ← assignTensorIntoBlock tensor_phys P P
  let blockMix ← assignTensorIntoBlock fisher_info_mix P N
  let blockMixT ← assignTensorIntoBlock (transpose3 fisher_info_mix) N P
  let blockNuis ← assignTensorIntoBlock fisher_info_nuisance N N
  .ok (assembleBlocks P N blockPhys blockMix blockMixT blockNuis)

/-- C6: with two events the nuisance branch raises: the physical-block
assignment cannot broadcast the per-event `(2, P, P)` tensor into the
`(P, P)` block and raises `ValueError`, whatever `np.log` returns.  The
branch never returns the claimed block matrix for more than one event,
contradicting the function's doc string, which promises a result for any
number of events. -/
theorem C6_nuisance_block_code_bug :
    ∀ lg : ℚ → ℚ,
      calc_fisher_info_nuisance lg 1 [1, 0] [[1, 0]] [[1, 2], [1, 3]] [false, true] none
        = .error .valueError := by
  intro lg
  rfl

/-- The expression language of cuts, efficiencies and observables: the
source compiles free-form text with Python `eval` against a variable
scope; the embedding keeps the fragment the claims need (constants,
names, arithmetic and a comparison). -/
inductive PyExpr where
  | const (q : ℚ)
  | var (name : String)
  | add (a b : PyExpr)
  | mul (a b : PyExpr)
  | gt (a b : PyExpr)
  deriving Repr

/-- The variable scope: `math_commands()` entries plus one binding per
observable name (`fisherinformation.py` lines 1157-1160). -/
def lookupVar (env : List (String × ℚ)) (x : String) : Option ℚ :=
  (env.find? (fun p => p.1 == x)).map (fun p => p.2)

/-- Python `eval` of an expression against the variable scope: an
unresolvable name raises `NameError`; a comparison yields `True`/`False`,
embedded as `1`/`0` (Python booleans are numeric). -/
def evalPyExpr (env : List (String × ℚ)) : PyExpr → Except PyErr ℚ
  | .const q => .ok q
  | .var x =>
      match lookupVar env x with
      | some v => .ok v
      | none => .error .nameError
  | .add a b => do
      let va ← evalPyExpr env a
      let vb ← evalPyExpr env b
      .ok (va + vb)
  | .mul a b => do
      let va ← evalPyExpr env a
      let vb ← evalPyExpr env b
      .ok (va * vb)
  | .gt a b => do
      let va ← evalPyExpr env a
      let vb ← evalPyExpr env b
      .ok (if vb < va then 1 else 0)

/-- `_pass_cuts`, `fisherinformation.py` lines 1130-1167: evaluates the
cuts in order; the event fails as soon as a cut evaluates falsy
(`if not bool(eval(cut, env)): return False`), and an evaluation
error propagates to the caller. -/
def pass_cuts (env : List (String × ℚ)) : List PyExpr → Except PyErr Bool
  | [] => .ok true
  | cut :: rest => do
      let v ← evalPyExpr env cut
      if v = 0 then .ok false else pass_cuts env rest

/-- `_eval_efficiency`, lines 1169-1207: the product of the evaluated
efficiency expressions, starting from `1.0`; an evaluation error
propagates. -/
def eval_efficiency (env : List (String × ℚ)) (efficiency_functions : List PyExpr) :
    Except PyErr ℚ :=
  efficiency_functions.foldlM (fun acc f => do
    let v ← evalPyExpr env f
    .ok (acc * v)) 1

/-- `_eval_observable`, lines 1209-1237: evaluates the observable
expression; an evaluation error propagates. -/
def eval_observable (env : List (String × ℚ)) (observable_definition : PyExpr) :
    Except PyErr ℚ :=
  evalPyExpr env observable_definition

/-- `models/readers.py`: `val_expression : Union[str, Callable]`. -/
inductive ValExpression where
  | str (e : PyExpr)
  | callable

/-- `models/readers.py` lines 7-13: the `Observable` dataclass. -/
structure Observable where
  name : String
  val_expression : ValExpression
  val_default : Option ℚ
  is_required : Bool

/-- `Observable.__post_init__`, `models/readers.py` lines 15-22: when the
value expression is not a string it returns immediately; otherwise it
runs `eval(self.val_expression)` with no observable bindings inside
`with suppress(NameError)`: a `NameError` is swallowed and construction
succeeds, while any other evaluation error propagates. -/
def observable_post_init (o : Observable) : Except PyErr Unit :=
  match o.val_expression with
  | .callable => .ok ()
  | .str e =>
      match evalPyExpr [] e with
      | .error .nameError => .ok ()
      | .error err => .error err
      | .ok _ => .ok ()

/-- C9 counterexample: constructing an `Observable` whose value
expression references the unresolvable name "undefined_name" does NOT
surface an error: `__post_init__` evaluates it under
`suppress(NameError)` and succeeds, although evaluating the very same
expression raises `NameError`. -/
theorem C9_observable_counterexample :
    observable_post_init ⟨"o", .str (.var "undefined_name"), none, false⟩ = .ok ()
    ∧ evalPyExpr [] (.var "undefined_name") = .error .nameError :=
  ⟨rfl, rfl⟩

/-- C9 (amended): in cut, efficiency and observable evaluation an
unresolvable name raises `NameError` when the expression is evaluated,
rather than being silently ignored; but `Observable` construction
deliberately suppresses the `NameError` from evaluating its value
expression (no observable names are bound at construction time), so an
unresolvable name there does not surface an error. -/
theorem C9_unresolved_name_error (env : List (String × ℚ)) (x : String)
    (cuts : List PyExpr) (h : lookupVar env x = none) :
    pass_cuts env (PyExpr.var x :: cuts) = .error .nameError
    ∧ eval_efficiency env [PyExpr.var x] = .error .nameError
    ∧ eval_observable env (PyExpr.var x) = .error .nameError
    ∧ ∀ (nm : String) (d : Option ℚ) (r : Bool) (y : String),
        observable_post_init ⟨nm, .str (.var y), d, r⟩ = .ok () := by
  have he : evalPyExpr env (.var x) = .error .nameError := by
    unfold evalPyExpr
    rw [h]
  refine ⟨?_, ?_, ?_, ?_⟩
  · simp only [pass_cuts, he]
    rfl
  · simp only [eval_efficiency, List.foldlM, he]
    rfl
  · simp only [eval_observable, he]
  · intro nm d r y
    rfl

/-- Witness for C9: a scope binding only "pt" with the unresolvable name
"missing". -/
theorem C9_unresolved_name_error_witness :
    pass_cuts [("pt", 5)] [PyExpr.var "missing"] = .error .nameError
    ∧ eval_efficiency [("pt", 5)] [PyExpr.var "missing"] = .error .nameError
    ∧ eval_observable [("pt", 5)] (PyExpr.var "missing") = .error .nameError
    ∧ ∀ (nm : String) (d : Option ℚ) (r : Bool) (y : String),
        observable_post_init ⟨nm, .str (.var y), d, r⟩ = .ok () :=
  C9_unresolved_name_error [("pt", 5)] "missing" [] (by rfl)

end Madminer
